import Mathlib

/-!
Shallow embedding of the Slate kernel builder
(`firedrake/slate/slac/kernel_builder.py`) and the halo exchange layer
(`firedrake/halo.py`).

Expression graphs are embedded as arenas: a node's identity is its arena
index (mirroring Python object identity), and each node additionally
carries a `tag` standing for the concrete object instance, so that two
structurally identical graphs built from independent node instances are
two arenas that agree after erasing tags.  Helper functions that live in
`firedrake/slate/slac/utils.py` (`traverse_dags`, `collect_reference_count`,
`count_operands`) and `firedrake.utils.cached_property` are not part of the
sources at hand and are modelled from the spec, as indicated on each
definition.  All other definitions are translated from the source.
-/

deriving instance DecidableEq for Except

namespace Slate

/-- Kind of a Slate expression node: `tensor` is a Terminal `Tensor`,
`plainOp` a `TensorOp` that is not an `Action`, `action` an `Action`
(which is a `TensorOp`). -/
inductive NodeKind
  | tensor
  | plainOp
  | action
deriving DecidableEq, Repr

/-- One expression-graph node: its kind, the arena indices of its operands,
and a `tag` standing for the concrete Python object instance (ignored by
every computation; two independent builds of the same graph differ only in
tags). -/
structure Node where
  kind : NodeKind
  operands : List Nat
  tag : Nat
deriving DecidableEq, Repr

/-- A coefficient of the expression. `mixedParts = some n` models
`type(coefficient.ufl_element()) == MixedElement` with `n` split
components; `none` models any other element. -/
structure Coefficient where
  mixedParts : Option Nat
deriving DecidableEq, Repr

/-- An expression graph: the arena, the root index, and the coefficients
returned by `expression.coefficients()` in canonical order. -/
structure Graph where
  nodes : List Node
  root : Nat
  coefficients : List Coefficient
deriving DecidableEq, Repr

/-- Operand list of the node at index `i` (empty for an absent index). -/
def opsOf (g : Graph) (i : Nat) : List Nat :=
  match g.nodes[i]? with
  | some n => n.operands
  | none => []

/-- Kind of the node at index `i`, if present. -/
def kindOf (g : Graph) (i : Nat) : Option NodeKind :=
  (g.nodes[i]?).map Node.kind

/-- Well-formed expression graph: the root is in the arena, every operand
edge points to an earlier arena slot (so the graph is acyclic), and
Terminal tensors have no operands. -/
def Graph.WF (g : Graph) : Prop :=
  g.root < g.nodes.length ∧
  ∀ p ∈ g.nodes.enum,
    (∀ j ∈ (p.2 : Node).operands, j < p.1) ∧
    (p.2.kind = NodeKind.tensor → p.2.operands = [])

/-- Erase instance tags, keeping only the structure of the graph. -/
def stripTags (g : Graph) : Graph :=
  { g with nodes := g.nodes.map (fun n => { n with tag := 0 }) }

mutual
/-- Modelled from the spec: `traverse_dags` (from
`firedrake/slate/slac/utils.py`, not in the sources at hand) performs a
single deterministic traversal of the DAG, visiting each node (by
identity) exactly once, operands before the node itself; `vis` is the list
of already visited nodes, which doubles as the output order.  The guard
`j < i` encodes that edges of a well-formed arena always point to earlier
slots; on well-formed graphs it never fires. -/
def visitOne (g : Graph) (i : Nat) (vis : List Nat) : List Nat :=
  if i ∈ vis then vis
  else visitMany g i (opsOf g i) vis ++ [i]
termination_by (i, (opsOf g i).length + 1)

/-- Visit each index of `l` that is below `bound`, threading the visited
list. -/
def visitMany (g : Graph) (bound : Nat) : List Nat → List Nat → List Nat
  | [], vis => vis
  | j :: rest, vis =>
      visitMany g bound rest (if j < bound then visitOne g j vis else vis)
termination_by l _ => (bound, l.length)
end

/-- Modelled from the spec: the reproducible first-encounter traversal of
the DAG rooted at `g.root`. -/
def traverse_dags (g : Graph) : List Nat :=
  visitOne g g.root []

/-- Modelled from the spec: `count_operands` (from
`firedrake/slate/slac/utils.py`, not in the sources at hand) is the
structural complexity measure used to order auxiliary expressions: the
number of operands of the node. -/
def count_operands (g : Graph) (i : Nat) : Nat :=
  (opsOf g i).length

/-- Modelled from the spec: `collect_reference_count` (from
`firedrake/slate/slac/utils.py`, not in the sources at hand) maps every
node of the graph to the number of edges pointing into it from other
reachable nodes, counting multiplicities. -/
def collect_reference_count (g : Graph) (i : Nat) : Nat :=
  ((traverse_dags g).map (fun j => (opsOf g j).count i)).sum

/-- Symbol name for the `n`-th temporary, `"T%d" % n`. -/
def tempName (n : Nat) : String :=
  "T" ++ toString n

/-- One step of the `generate_expr_data` loop body: a `Tensor` node is
entered into the temporaries map via `setdefault` (keyed by identity, with
the symbol name derived from the current map size), a `TensorOp` node
(including `Action`) is appended to the worklist. -/
def exprDataStep (g : Graph) (st : List (Nat × String) × List Nat) (i : Nat) :
    List (Nat × String) × List Nat :=
  match kindOf g i with
  | some NodeKind.tensor =>
      (if st.1.any (fun p => p.1 = i) then st.1
       else st.1 ++ [(i, tempName st.1.length)], st.2)
  | some NodeKind.plainOp => (st.1, st.2 ++ [i])
  | some NodeKind.action => (st.1, st.2 ++ [i])
  | none => st

/-- Translation of `generate_expr_data`: one traversal fills the
temporaries map and the `tensor_ops` worklist, which is then sorted by
operand count with Python's stable sort (`sorted(key=count_operands)`,
embedded as the stable `List.mergeSort`). -/
def generate_expr_data (g : Graph) : List (Nat × String) × List Nat :=
  let st := (traverse_dags g).foldl (exprDataStep g) ([], [])
  (st.1, st.2.mergeSort (fun a b => decide (count_operands g a ≤ count_operands g b)))

/-- `true` iff the node at `i` is a `TensorOp` (plain operator or `Action`). -/
def isTensorOp (g : Graph) (i : Nat) : Bool :=
  kindOf g i == some NodeKind.plainOp || kindOf g i == some NodeKind.action

/-- `true` iff the node at `i` is a Terminal `Tensor`. -/
def isTensor (g : Graph) (i : Nat) : Bool :=
  kindOf g i == some NodeKind.tensor

/-- Expected shape of the temporaries map: the listed tensors paired with
consecutive names starting at `"T" ++ toString start`. -/
def nameTemps (start : Nat) : List Nat → List (Nat × String)
  | [] => []
  | i :: l => (i, tempName start) :: nameTemps (start + 1) l

/-- Payload of one generated subkernel AST; opaque to the builder, which
only stores and rewrites it through the external `Transformer`. -/
abbrev KAst := Nat

/-- One TSFC split kernel inside a context kernel: its `kinfo.oriented`
flag, `kinfo.subdomain_id`, and `kinfo.kernel._ast` payload. -/
structure SplitKernel where
  oriented : Bool
  subdomain_id : String
  kernel_ast : KAst
deriving DecidableEq, Repr

/-- A `ContextKernel` bundle produced by the external terminal-form
compiler (`compile_terminal_form`) for one Terminal node. -/
structure ContextKernel where
  tsfc_kernels : List SplitKernel
deriving DecidableEq, Repr

/-- Python exception classes raised by the embedded code. -/
inductive SlateError
  | assertionError (msg : String)
  | notImplementedError (msg : String)
  | attributeError
deriving DecidableEq, Repr

/-- A Python sequence argument, remembering whether it is a `list` or a
`tuple` (the `construct_ast` precondition distinguishes the two). -/
inductive PySeq (α : Type)
  | list (xs : List α)
  | tuple (xs : List α)
deriving DecidableEq, Repr

/-- State of a `KernelBuilder`.  The two `Option` caches model the
`cached_property` cells of `coefficient_map` and `context_kernels`
(`firedrake.utils.cached_property` is not in the sources at hand;
modelled from the spec as a once-computed, never-recomputed field). -/
structure KernelBuilder where
  expression : Graph
  needs_cell_facets : Bool
  needs_mesh_layers : Bool
  oriented : Bool
  finalized_ast : Option (List KAst)
  _is_finalized : Bool
  temps : List (Nat × String)
  aux_exprs : List Nat
  coefficient_map_cache : Option (List (Nat × List String))
  context_kernels_cache : Option (List ContextKernel)
deriving DecidableEq, Repr

/-- Translation of `KernelBuilder.__init__`: flags start `False`, the
finalized AST starts `None`, the temporaries map and operator worklist
come from `generate_expr_data`, and the auxiliary list keeps the worklist
entries whose reference count in the full graph exceeds 1 or that are
`Action` nodes. -/
def KernelBuilder.init (expression : Graph) : KernelBuilder :=
  let p := generate_expr_data expression
  let ref_counts := collect_reference_count expression
  { expression := expression
    needs_cell_facets := false
    needs_mesh_layers := false
    oriented := false
    finalized_ast := none
    _is_finalized := false
    temps := p.1
    aux_exprs := p.2.filter
      (fun op => decide (1 < ref_counts op) ||
        (kindOf expression op == some NodeKind.action))
    coefficient_map_cache := none
    context_kernels_cache := none }

/-- Translation of `KernelBuilder.require_cell_facets`. -/
def require_cell_facets (b : KernelBuilder) : KernelBuilder :=
  { b with needs_cell_facets := true }

/-- Translation of `KernelBuilder.require_mesh_layers`. -/
def require_mesh_layers (b : KernelBuilder) : KernelBuilder :=
  { b with needs_mesh_layers := true }

/-- Kernel-argument symbols for the `i`-th coefficient: the inner loop of
`KernelBuilder.coefficient_map` (`"w_%d_%d" % (i, j)` per split component
of a mixed coefficient, else the single `"w_%d" % i`). -/
def coeffSyms (i : Nat) (c : Coefficient) : List String :=
  match c.mixedParts with
  | some parts =>
      (List.range parts).foldl
        (fun l j => l ++ ["w_" ++ toString i ++ "_" ++ toString j]) []
  | none => ["w_" ++ toString i]

/-- Body of `KernelBuilder.coefficient_map`: enumerate the coefficients in
canonical order and record their symbol tuples in insertion order. -/
def compute_coefficient_map (coeffs : List Coefficient) : List (Nat × List String) :=
  coeffs.enum.foldl (fun acc p => acc ++ [(p.1, coeffSyms p.1 p.2)]) []

/-- Access to the `coefficient_map` cached property: compute on first
access, afterwards return the stored mapping unchanged. -/
def coefficient_map (b : KernelBuilder) : KernelBuilder × List (Nat × List String) :=
  match b.coefficient_map_cache with
  | some m => (b, m)
  | none =>
      let m := compute_coefficient_map b.expression.coefficients
      ({ b with coefficient_map_cache := some m }, m)

/-- Translation of `KernelBuilder.coefficient`: look the coefficient up in
the (possibly freshly computed) coefficient map; `none` models the
`KeyError` on an unknown coefficient. -/
def coefficient (b : KernelBuilder) (c : Nat) : KernelBuilder × Option (List String) :=
  let p := coefficient_map b
  (p.1, (p.2.find? (fun q => q.1 == c)).map Prod.snd)

/-- Access to the `context_kernels` cached property: on first access run
the external `compile_terminal_form` (here the parameter `compileFn`,
taking the position of the temporary in the map — which determines the
`"subkernel%d_"` prefix — and the Terminal node) over `self.temps` in
insertion order, flattening the per-terminal bundles. -/
def context_kernels (compileFn : Nat → Nat → List ContextKernel)
    (b : KernelBuilder) : KernelBuilder × List ContextKernel :=
  match b.context_kernels_cache with
  | some cks => (b, cks)
  | none =>
      let cks := (b.temps.enum.map (fun p => compileFn p.1 p.2.1)).flatten
      ({ b with context_kernels_cache := some cks }, cks)

/-- The `for splitkernel in splitkernels` loop of
`_finalize_kernels_and_update`: OR the orientation flags, reject any
non-default subdomain id, and collect the rewritten kernel ASTs. -/
def finalizeLoop (visit : KAst → KAst) :
    List SplitKernel → Bool → List KAst → Except SlateError (Bool × List KAst)
  | [], oriented, kernel_list => Except.ok (oriented, kernel_list)
  | sk :: rest, oriented, kernel_list =>
      let oriented := oriented || sk.oriented
      if sk.subdomain_id ≠ "otherwise" then
        Except.error (SlateError.notImplementedError "Subdomains not implemented yet.")
      else
        finalizeLoop visit rest oriented (kernel_list ++ [visit sk.kernel_ast])

/-- Translation of `KernelBuilder._finalize_kernels_and_update`; `visit`
is the external `Transformer().visit` rewriting pass.  The builder fields
are only assigned after the loop completes, so on an error the builder is
returned with only the `context_kernels` cache possibly filled. -/
def _finalize_kernels_and_update (compileFn : Nat → Nat → List ContextKernel)
    (visit : KAst → KAst) (b : KernelBuilder) :
    KernelBuilder × Except SlateError Unit :=
  let p := context_kernels compileFn b
  let splitkernels := (p.2.map ContextKernel.tsfc_kernels).flatten
  match finalizeLoop visit splitkernels p.1.oriented [] with
  | Except.error e => (p.1, Except.error e)
  | Except.ok q =>
      ({ p.1 with oriented := q.1, finalized_ast := some q.2, _is_finalized := true },
       Except.ok ())

/-- Translation of `KernelBuilder.construct_ast`.  Mirrors the source
faithfully: `kernel_ast = self.finalized_ast` aliases the stored list and
`kernel_ast.extend(macro_kernels)` mutates it in place, so the returned
artifact content and the builder's `finalized_ast` are both the extended
list. -/
def construct_ast (b : KernelBuilder) (macro_kernels : PySeq KAst) :
    KernelBuilder × Except SlateError (List KAst) :=
  match macro_kernels with
  | PySeq.tuple _ =>
      (b, Except.error (SlateError.assertionError
        "Please wrap all macro kernel functions in a list"))
  | PySeq.list mks =>
      if b._is_finalized then
        match b.finalized_ast with
        | some kernel_ast =>
            let kernel_ast := kernel_ast ++ mks
            ({ b with finalized_ast := some kernel_ast }, Except.ok kernel_ast)
        | none => (b, Except.error SlateError.attributeError)
      else
        (b, Except.error (SlateError.assertionError
          "AST not finalized. Did you forget to call builder._finalize_kernels_and_update()?"))

end Slate

namespace Halo

/-- An MPI datatype descriptor as built by `_get_mtype`: a base type from
the type dictionary, or a committed contiguous derived type. -/
inductive MPIType
  | base (char : String)
  | contiguous (b : MPIType) (count : Nat)
deriving DecidableEq, Repr

/-- A PyOP2 `Dat` handle: its dtype character, block size `cdim`, and
payload. -/
structure Dat where
  dtype : String
  cdim : Nat
  data : List Nat
deriving DecidableEq, Repr

/-- PyOP2 access descriptors (`op2.WRITE`, `op2.INC`, ...). -/
inductive Access
  | READ | WRITE | RW | INC | MIN | MAX
deriving DecidableEq, Repr

/-- Python exception outcomes of the halo operations. -/
inductive HaloError
  | assertionError (msg : String)
  | runtimeError (msg : String)
deriving DecidableEq, Repr

/-- Translation of `_get_mtype`, with the MPI type dictionary passed in as
`tdict` (it belongs to mpi4py) and the process-wide `_MPI_types` memo
cache elided (it only avoids rebuilding an equal descriptor). -/
def _get_mtype (tdict : String → Option MPIType) (dat : Dat) :
    Except HaloError MPIType :=
  match tdict dat.dtype with
  | none => Except.error (HaloError.runtimeError "Unknown base type")
  | some btype =>
      if dat.cdim = 1 then Except.ok btype
      else Except.ok (MPIType.contiguous btype dat.cdim)

/-- Result of one halo operation: the (possibly exchanged) `Dat` and the
list of communication calls issued to the star-forest runtime. -/
abbrev HaloResult := Dat × List String

/-- Translation of `Halo.global_to_local_begin`; `halo_begin` is the
external `dmplex.halo_begin` communication primitive (its `Bool` argument
is the reverse flag). -/
def global_to_local_begin (tdict : String → Option MPIType)
    (halo_begin : Dat → MPIType → Bool → Dat)
    (commSize : Nat) (dat : Dat) (insert_mode : Access) :
    Except HaloError HaloResult :=
  if insert_mode ≠ Access.WRITE then
    Except.error (HaloError.assertionError "Only WRITE GtoL supported")
  else if commSize = 1 then
    Except.ok (dat, [])
  else
    match _get_mtype tdict dat with
    | Except.error e => Except.error e
    | Except.ok mtype => Except.ok (halo_begin dat mtype false, ["halo_begin"])

/-- Translation of `Halo.global_to_local_end`; `halo_end` is the external
`dmplex.halo_end` primitive. -/
def global_to_local_end (tdict : String → Option MPIType)
    (halo_end : Dat → MPIType → Bool → Dat)
    (commSize : Nat) (dat : Dat) (insert_mode : Access) :
    Except HaloError HaloResult :=
  if insert_mode ≠ Access.WRITE then
    Except.error (HaloError.assertionError "Only WRITE GtoL supported")
  else if commSize = 1 then
    Except.ok (dat, [])
  else
    match _get_mtype tdict dat with
    | Except.error e => Except.error e
    | Except.ok mtype => Except.ok (halo_end dat mtype false, ["halo_end"])

/-- Translation of `Halo.local_to_global_begin`. -/
def local_to_global_begin (tdict : String → Option MPIType)
    (halo_begin : Dat → MPIType → Bool → Dat)
    (commSize : Nat) (dat : Dat) (insert_mode : Access) :
    Except HaloError HaloResult :=
  if insert_mode ≠ Access.INC then
    Except.error (HaloError.assertionError "Only INC LtoG supported")
  else if commSize = 1 then
    Except.ok (dat, [])
  else
    match _get_mtype tdict dat with
    | Except.error e => Except.error e
    | Except.ok mtype => Except.ok (halo_begin dat mtype true, ["halo_begin"])

/-- Translation of `Halo.local_to_global_end`. -/
def local_to_global_end (tdict : String → Option MPIType)
    (halo_end : Dat → MPIType → Bool → Dat)
    (commSize : Nat) (dat : Dat) (insert_mode : Access) :
    Except HaloError HaloResult :=
  if insert_mode ≠ Access.INC then
    Except.error (HaloError.assertionError "Only INC LtoG supported")
  else if commSize = 1 then
    Except.ok (dat, [])
  else
    match _get_mtype tdict dat with
    | Except.error e => Except.error e
    | Except.ok mtype => Except.ok (halo_end dat mtype true, ["halo_end"])

end Halo

namespace Slate

/-- A one-node graph: a single Terminal tensor, used as a concrete input. -/
def tinyGraph : Graph :=
  { nodes := [⟨NodeKind.tensor, [], 0⟩], root := 0, coefficients := [] }

/-- A concrete builder in the finalized state, with one finalized
subkernel AST. -/
def finalizedBuilder : KernelBuilder :=
  { expression := tinyGraph
    needs_cell_facets := false
    needs_mesh_layers := false
    oriented := false
    finalized_ast := some [10]
    _is_finalized := true
    temps := [(0, "T0")]
    aux_exprs := []
    coefficient_map_cache := none
    context_kernels_cache := none }

/-- A concrete builder in the constructed (not yet finalized) state. -/
def constructedBuilder : KernelBuilder :=
  { expression := tinyGraph
    needs_cell_facets := false
    needs_mesh_layers := false
    oriented := false
    finalized_ast := none
    _is_finalized := false
    temps := [(0, "T0")]
    aux_exprs := []
    coefficient_map_cache := none
    context_kernels_cache := none }

/-- A concrete builder whose expression has one mixed coefficient with two
parts and one non-mixed coefficient. -/
def coeffBuilder : KernelBuilder :=
  { expression := { nodes := [⟨NodeKind.tensor, [], 0⟩], root := 0,
                    coefficients := [⟨some 2⟩, ⟨none⟩] }
    needs_cell_facets := false
    needs_mesh_layers := false
    oriented := false
    finalized_ast := none
    _is_finalized := false
    temps := [(0, "T0")]
    aux_exprs := []
    coefficient_map_cache := none
    context_kernels_cache := none }

/-- A concrete three-node graph: two Terminal tensors combined by one
operator node. -/
def sumGraph : Graph :=
  { nodes := [⟨NodeKind.tensor, [], 1⟩, ⟨NodeKind.tensor, [], 2⟩,
              ⟨NodeKind.plainOp, [0, 1], 3⟩],
    root := 2, coefficients := [] }

/-- The same graph as `sumGraph` built from independent node instances:
identical structure, different instance tags. -/
def sumGraph' : Graph :=
  { nodes := [⟨NodeKind.tensor, [], 4⟩, ⟨NodeKind.tensor, [], 5⟩,
              ⟨NodeKind.plainOp, [0, 1], 6⟩],
    root := 2, coefficients := [] }

end Slate

/-! ## Helper lemmas -/

namespace Slate

theorem visitMany_append (g : Graph) :
    ∀ (bound : Nat) (l vis : List Nat), ∃ new, visitMany g bound l vis = vis ++ new := by
  refine visitMany.induct g
    (fun i vis => ∃ new, visitOne g i vis = vis ++ new)
    (fun bound l vis => ∃ new, visitMany g bound l vis = vis ++ new)
    ?_ ?_ ?_ ?_
  · intro i vis h
    exact ⟨[], by simp [visitOne, h]⟩
  · intro i vis h ih
    obtain ⟨new, hnew⟩ := ih
    refine ⟨new ++ [i], ?_⟩
    rw [visitOne]
    simp [h, hnew]
  · intro bound vis
    exact ⟨[], by simp [visitMany]⟩
  · intro bound j rest vis ih1 ih2
    by_cases hj : j < bound
    · rw [dif_pos hj] at ih2
      obtain ⟨n1, hn1⟩ := ih1 hj
      obtain ⟨n2, hn2⟩ := ih2
      refine ⟨n1 ++ n2, ?_⟩
      rw [visitMany]
      simp [hj, hn1] at hn2
      simp [hj, hn2, hn1]
    · rw [dif_neg hj] at ih2
      obtain ⟨n2, hn2⟩ := ih2
      refine ⟨n2, ?_⟩
      rw [visitMany]
      simp [hj, hn2]

theorem visitOne_append (g : Graph) (i : Nat) (vis : List Nat) :
    ∃ new, visitOne g i vis = vis ++ new := by
  by_cases h : i ∈ vis
  · exact ⟨[], by simp [visitOne, h]⟩
  · obtain ⟨new, hnew⟩ := visitMany_append g i (opsOf g i) vis
    refine ⟨new ++ [i], ?_⟩
    rw [visitOne]
    simp [h, hnew]



theorem visitMany_mem (g : Graph) :
    ∀ (bound : Nat) (l vis : List Nat) (x : Nat),
      x ∈ visitMany g bound l vis → x ∈ vis ∨ x < bound := by
  have main := visitMany.induct g
    (fun i vis => ∀ x, x ∈ visitOne g i vis → x ∈ vis ∨ x ≤ i)
    (fun bound l vis => ∀ x, x ∈ visitMany g bound l vis → x ∈ vis ∨ x < bound)
    ?_ ?_ ?_ ?_
  · exact main
  · intro i vis h x hx
    rw [visitOne] at hx
    simp [h] at hx
    exact Or.inl hx
  · intro i vis h ih x hx
    rw [visitOne] at hx
    simp [h] at hx
    rcases hx with hx | hx
    · rcases ih x hx with h' | h'
      · exact Or.inl h'
      · exact Or.inr (Nat.le_of_lt h')
    · exact Or.inr (Nat.le_of_eq hx)
  · intro bound vis x hx
    rw [visitMany] at hx
    exact Or.inl hx
  · intro bound j rest vis ih1 ih2 x hx
    rw [visitMany] at hx
    by_cases hj : j < bound
    · rw [dif_pos hj] at ih2
      simp only [hj, if_true] at hx
      rcases ih2 x hx with h' | h'
      · rcases ih1 hj x h' with h'' | h''
        · exact Or.inl h''
        · exact Or.inr (Nat.lt_of_le_of_lt h'' hj)
      · exact Or.inr h'
    · rw [dif_neg hj] at ih2
      simp only [hj, if_false] at hx
      exact ih2 x hx

theorem visitOne_mem (g : Graph) (i : Nat) (vis : List Nat) (x : Nat)
    (hx : x ∈ visitOne g i vis) : x ∈ vis ∨ x ≤ i := by
  by_cases h : i ∈ vis
  · rw [visitOne] at hx
    simp [h] at hx
    exact Or.inl hx
  · rw [visitOne] at hx
    simp [h] at hx
    rcases hx with hx | hx
    · rcases visitMany_mem g i (opsOf g i) vis x hx with h' | h'
      · exact Or.inl h'
      · exact Or.inr (Nat.le_of_lt h')
    · exact Or.inr (Nat.le_of_eq hx)

theorem visitMany_nodup (g : Graph) :
    ∀ (bound : Nat) (l vis : List Nat), vis.Nodup → (visitMany g bound l vis).Nodup := by
  have main := visitMany.induct g
    (fun i vis => vis.Nodup → (visitOne g i vis).Nodup)
    (fun bound l vis => vis.Nodup → (visitMany g bound l vis).Nodup)
    ?_ ?_ ?_ ?_
  · exact main
  · intro i vis h hnd
    rw [visitOne]
    simpa [h] using hnd
  · intro i vis h ih hnd
    rw [visitOne]
    simp only [h, if_false]
    rw [List.nodup_append]
    refine ⟨ih hnd, List.nodup_singleton i, ?_⟩
    intro a ha hb
    simp at hb
    rw [hb] at ha
    rcases visitMany_mem g i (opsOf g i) vis i ha with h' | h'
    · exact h h'
    · exact Nat.lt_irrefl i h'
  · intro bound vis hnd
    rw [visitMany]
    exact hnd
  · intro bound j rest vis ih1 ih2 hnd
    rw [visitMany]
    by_cases hj : j < bound
    · rw [dif_pos hj] at ih2
      simp only [hj, if_true]
      exact ih2 (ih1 hj hnd)
    · rw [dif_neg hj] at ih2
      simp only [hj, if_false]
      exact ih2 hnd

theorem visitOne_nodup (g : Graph) (i : Nat) (vis : List Nat) (hnd : vis.Nodup) :
    (visitOne g i vis).Nodup := by
  by_cases h : i ∈ vis
  · rw [visitOne]
    simpa [h] using hnd
  · rw [visitOne]
    simp only [h, if_false]
    rw [List.nodup_append]
    refine ⟨visitMany_nodup g i (opsOf g i) vis hnd, List.nodup_singleton i, ?_⟩
    intro a ha hb
    simp at hb
    rw [hb] at ha
    rcases visitMany_mem g i (opsOf g i) vis i ha with h' | h'
    · exact h h'
    · exact Nat.lt_irrefl i h'

theorem traverse_dags_nodup (g : Graph) : (traverse_dags g).Nodup :=
  visitOne_nodup g g.root [] List.nodup_nil



theorem visitMany_congr (g g' : Graph) (hops : ∀ k, opsOf g k = opsOf g' k) :
    ∀ (bound : Nat) (l vis : List Nat), visitMany g bound l vis = visitMany g' bound l vis := by
  have main := visitMany.induct g
    (fun i vis => visitOne g i vis = visitOne g' i vis)
    (fun bound l vis => visitMany g bound l vis = visitMany g' bound l vis)
    ?_ ?_ ?_ ?_
  · exact main
  · intro i vis h
    rw [visitOne, visitOne]
    simp [h]
  · intro i vis h ih
    rw [visitOne, visitOne]
    simp only [h, if_false]
    rw [ih, hops i]
  · intro bound vis
    rw [visitMany, visitMany]
  · intro bound j rest vis ih1 ih2
    rw [visitMany, visitMany]
    by_cases hj : j < bound
    · rw [dif_pos hj] at ih2
      simp only [hj, if_true]
      rw [← ih1 hj, ih2]
    · rw [dif_neg hj] at ih2
      simp only [hj, if_false]
      exact ih2

theorem visitOne_congr (g g' : Graph) (hops : ∀ k, opsOf g k = opsOf g' k)
    (i : Nat) (vis : List Nat) : visitOne g i vis = visitOne g' i vis := by
  by_cases h : i ∈ vis
  · rw [visitOne, visitOne]
    simp [h]
  · rw [visitOne, visitOne]
    simp only [h, if_false]
    rw [visitMany_congr g g' hops, hops i]



theorem opsOf_stripTags (g : Graph) (i : Nat) : opsOf (stripTags g) i = opsOf g i := by
  simp only [opsOf, stripTags, List.getElem?_map]
  cases g.nodes[i]? <;> rfl

theorem kindOf_stripTags (g : Graph) (i : Nat) : kindOf (stripTags g) i = kindOf g i := by
  simp only [kindOf, stripTags, List.getElem?_map]
  cases g.nodes[i]? <;> rfl

theorem root_stripTags (g : Graph) : (stripTags g).root = g.root := rfl

theorem coefficients_stripTags (g : Graph) : (stripTags g).coefficients = g.coefficients := rfl

theorem foldl_exprDataStep (g : Graph) :
    ∀ (order : List Nat) (ts : List (Nat × String)) (ops : List Nat),
      order.Nodup → (∀ i ∈ order, ∀ p ∈ ts, p.1 ≠ i) →
      order.foldl (exprDataStep g) (ts, ops) =
        (ts ++ nameTemps ts.length (order.filter (fun i => isTensor g i)),
         ops ++ order.filter (fun i => isTensorOp g i)) := by
  intro order
  induction order with
  | nil => intro ts ops _ _; simp [nameTemps]
  | cons i rest ih =>
    intro ts ops hnd hdisj
    rw [List.foldl_cons]
    have hnotmem : i ∉ rest := (List.nodup_cons.mp hnd).1
    have hany : ts.any (fun p => p.1 = i) = false := by
      rw [List.any_eq_false]
      intro p hp
      simpa using hdisj i (List.mem_cons_self i rest) p hp
    rcases hk : kindOf g i with _ | k
    · have hten : isTensor g i = false := by simp [isTensor, hk]
      have hop : isTensorOp g i = false := by simp [isTensorOp, hk]
      rw [show exprDataStep g (ts, ops) i = (ts, ops) by simp [exprDataStep, hk]]
      rw [ih ts ops (List.nodup_cons.mp hnd).2
        (fun x hx p hp => hdisj x (List.mem_cons_of_mem i hx) p hp)]
      simp [hten, hop]
    · cases k with
      | tensor =>
        have hten : isTensor g i = true := by simp [isTensor, hk]
        have hop : isTensorOp g i = false := by simp [isTensorOp, hk]
        rw [show exprDataStep g (ts, ops) i
              = (ts ++ [(i, tempName ts.length)], ops) by
            simp [exprDataStep, hk, hany]]
        rw [ih (ts ++ [(i, tempName ts.length)]) ops (List.nodup_cons.mp hnd).2 ?_]
        · simp only [hten, hop, List.filter_cons_of_pos, List.filter_cons_of_neg,
            Bool.not_eq_true, List.length_append, List.length_cons, List.length_nil,
            nameTemps]
          simp [nameTemps]
        · intro x hx p hp
          rcases List.mem_append.mp hp with hp' | hp'
          · exact hdisj x (List.mem_cons_of_mem i hx) p hp'
          · simp at hp'
            rw [hp']
            simp only [ne_eq]
            intro hcon
            exact hnotmem (hcon ▸ hx)
      | plainOp =>
        have hten : isTensor g i = false := by simp [isTensor, hk]
        have hop : isTensorOp g i = true := by simp [isTensorOp, hk]
        rw [show exprDataStep g (ts, ops) i = (ts, ops ++ [i]) by
            simp [exprDataStep, hk]]
        rw [ih ts (ops ++ [i]) (List.nodup_cons.mp hnd).2
          (fun x hx p hp => hdisj x (List.mem_cons_of_mem i hx) p hp)]
        simp [hten, hop]
      | action =>
        have hten : isTensor g i = false := by simp [isTensor, hk]
        have hop : isTensorOp g i = true := by simp [isTensorOp, hk]
        rw [show exprDataStep g (ts, ops) i = (ts, ops ++ [i]) by
            simp [exprDataStep, hk]]
        rw [ih ts (ops ++ [i]) (List.nodup_cons.mp hnd).2
          (fun x hx p hp => hdisj x (List.mem_cons_of_mem i hx) p hp)]
        simp [hten, hop]

theorem generate_expr_data_eq (g : Graph) :
    generate_expr_data g =
      (nameTemps 0 ((traverse_dags g).filter (fun i => isTensor g i)),
       ((traverse_dags g).filter (fun i => isTensorOp g i)).mergeSort
         (fun a b => decide (count_operands g a ≤ count_operands g b))) := by
  unfold generate_expr_data
  rw [foldl_exprDataStep g (traverse_dags g) [] [] (traverse_dags_nodup g)
    (by intro i _ p hp; simp at hp)]
  simp



theorem nameTemps_map_fst (start : Nat) (l : List Nat) :
    (nameTemps start l).map Prod.fst = l := by
  induction l generalizing start with
  | nil => rfl
  | cons i rest ih => simp [nameTemps, ih]

theorem nameTemps_get? (start : Nat) (l : List Nat) (k : Nat) :
    (nameTemps start l)[k]? = (l[k]?).map (fun i => (i, tempName (start + k))) := by
  induction l generalizing start k with
  | nil => simp [nameTemps]
  | cons i rest ih =>
    cases k with
    | zero => simp [nameTemps]
    | succ k =>
      simp only [nameTemps, List.getElem?_cons_succ, ih (start + 1) k]
      have : start + 1 + k = start + (k + 1) := by omega
      rw [this]

theorem finalizeLoop_ok (visit : KAst → KAst) :
    ∀ (sks : List SplitKernel) (o : Bool) (acc : List KAst),
      (∀ sk ∈ sks, sk.subdomain_id = "otherwise") →
      finalizeLoop visit sks o acc =
        Except.ok (o || sks.any SplitKernel.oriented,
          acc ++ sks.map (fun sk => visit sk.kernel_ast)) := by
  intro sks
  induction sks with
  | nil => intro o acc _; simp [finalizeLoop]
  | cons sk rest ih =>
    intro o acc hall
    have hsk : sk.subdomain_id = "otherwise" := hall sk (List.mem_cons_self sk rest)
    rw [finalizeLoop]
    simp only [hsk, ne_eq, not_true_eq_false, if_false]
    rw [ih (o || sk.oriented) (acc ++ [visit sk.kernel_ast])
      (fun x hx => hall x (List.mem_cons_of_mem sk hx))]
    simp [Bool.or_assoc]

theorem finalizeLoop_error (visit : KAst → KAst) :
    ∀ (sks : List SplitKernel) (o : Bool) (acc : List KAst),
      (∃ sk ∈ sks, sk.subdomain_id ≠ "otherwise") →
      finalizeLoop visit sks o acc =
        Except.error (SlateError.notImplementedError "Subdomains not implemented yet.") := by
  intro sks
  induction sks with
  | nil => intro o acc h; simp at h
  | cons sk rest ih =>
    intro o acc h
    rw [finalizeLoop]
    by_cases hsk : sk.subdomain_id = "otherwise"
    · simp only [hsk, ne_eq, not_true_eq_false, if_false]
      apply ih
      rcases h with ⟨x, hx, hxs⟩
      rcases List.mem_cons.mp hx with h' | h'
      · exact absurd (h' ▸ hxs) (by simp [hsk])
      · exact ⟨x, h', hxs⟩
    · simp [hsk]

theorem coeffSyms_mixed (i parts : Nat) :
    coeffSyms i ⟨some parts⟩ =
      (List.range parts).map (fun j => "w_" ++ toString i ++ "_" ++ toString j) := by
  have gen : ∀ (l : List Nat) (acc : List String),
      l.foldl (fun a j => a ++ ["w_" ++ toString i ++ "_" ++ toString j]) acc =
        acc ++ l.map (fun j => "w_" ++ toString i ++ "_" ++ toString j) := by
    intro l
    induction l with
    | nil => intro acc; simp
    | cons x rest ih => intro acc; simp [ih]
  simpa [coeffSyms] using gen (List.range parts) []

theorem coeffSyms_simple (i : Nat) : coeffSyms i ⟨none⟩ = ["w_" ++ toString i] := rfl

theorem compute_coefficient_map_eq (coeffs : List Coefficient) :
    compute_coefficient_map coeffs =
      coeffs.enum.map (fun p => (p.1, coeffSyms p.1 p.2)) := by
  have gen : ∀ (l : List (Nat × Coefficient)) (acc : List (Nat × List String)),
      l.foldl (fun a p => a ++ [(p.1, coeffSyms p.1 p.2)]) acc =
        acc ++ l.map (fun p => (p.1, coeffSyms p.1 p.2)) := by
    intro l
    induction l with
    | nil => intro acc; simp
    | cons x rest ih => intro acc; simp [ih]
  simpa [compute_coefficient_map] using gen coeffs.enum []

theorem compute_coefficient_map_get? (coeffs : List Coefficient) (i : Nat) :
    (compute_coefficient_map coeffs)[i]? =
      (coeffs[i]?).map (fun c => (i, coeffSyms i c)) := by
  rw [compute_coefficient_map_eq, List.getElem?_map]
  cases h : coeffs[i]? with
  | none =>
      have : coeffs.enum[i]? = none := by
        rw [List.getElem?_eq_none_iff] at h ⊢
        simpa using h
      simp [this]
  | some c =>
      have : coeffs.enum[i]? = some (i, c) := by
        rw [List.getElem?_enum, h]
        rfl
      simp [this]



theorem two_mem_sublist {α : Type} {a b : α} {l : List α} (ha : a ∈ l) (hb : b ∈ l)
    (hab : a ≠ b) : List.Sublist [a, b] l ∨ List.Sublist [b, a] l := by
  induction l with
  | nil => simp at ha
  | cons x t ih =>
    rcases List.mem_cons.mp ha with rfl | ha'
    · have hb' : b ∈ t := by
        rcases List.mem_cons.mp hb with h | h
        · exact absurd h.symm hab
        · exact h
      exact Or.inl (List.cons_sublist_cons.mpr (List.singleton_sublist.mpr hb'))
    · rcases List.mem_cons.mp hb with rfl | hb'
      · exact Or.inr (List.cons_sublist_cons.mpr (List.singleton_sublist.mpr ha'))
      · rcases ih ha' hb' with h | h
        · exact Or.inl (h.cons x)
        · exact Or.inr (h.cons x)

theorem sublist_pair_antisymm {α : Type} {a b : α} {l : List α} (hnd : l.Nodup)
    (h1 : List.Sublist [a, b] l) (h2 : List.Sublist [b, a] l) (hab : a ≠ b) : False := by
  induction l with
  | nil => simp at h1
  | cons x t ih =>
    have hx : x ∉ t := (List.nodup_cons.mp hnd).1
    have hndt : t.Nodup := (List.nodup_cons.mp hnd).2
    cases h1 with
    | cons _ h1' =>
      cases h2 with
      | cons _ h2' => exact ih hndt h1' h2'
      | cons₂ _ h2' =>
        exact hx (h1'.subset (by simp))
    | cons₂ _ h1' =>
      cases h2 with
      | cons _ h2' =>
        exact hx (h2'.subset (by simp))
      | cons₂ _ h2' => exact hab rfl


end Slate

/-! ## Claim theorems -/

namespace Slate

/-- C1: counterexample to the claim as stated.  `construct_ast` aliases the
stored `finalized_ast` and extends it in place, so already the first call
changes the builder's observable state, and a second call with the same
macro-kernel list yields an artifact with different content (the macro
kernels appear twice). -/
theorem c1_construct_ast_not_idempotent :
    (construct_ast finalizedBuilder (PySeq.list [5])).1 ≠ finalizedBuilder ∧
    (construct_ast (construct_ast finalizedBuilder (PySeq.list [5])).1
        (PySeq.list [5])).2 ≠
      (construct_ast finalizedBuilder (PySeq.list [5])).2 := by
  decide

/-- C1 (amended): on a finalized builder whose finalized subkernel list is
`ks`, `construct_ast` returns the artifact `ks ++ ms` — the finalized
subkernels followed by the caller-supplied macro kernels — but it also
stores the extended list back into the builder's `finalized_ast`, so
repeated calls accumulate the macro kernels instead of yielding artifacts
of equal content. -/
theorem c1_construct_ast_appends (b : KernelBuilder) (ks ms : List KAst)
    (hf : b._is_finalized = true) (ha : b.finalized_ast = some ks) :
    construct_ast b (PySeq.list ms) =
      ({ b with finalized_ast := some (ks ++ ms) }, Except.ok (ks ++ ms)) := by
  simp [construct_ast, hf, ha]

/-- C1 witness: the amended theorem at a concrete finalized builder. -/
theorem c1_construct_ast_appends_witness :
    finalizedBuilder._is_finalized = true ∧
    finalizedBuilder.finalized_ast = some [10] ∧
    construct_ast finalizedBuilder (PySeq.list [5]) =
      ({ finalizedBuilder with finalized_ast := some [10, 5] },
        Except.ok [10, 5]) :=
  ⟨rfl, rfl, c1_construct_ast_appends finalizedBuilder [10] [5] rfl rfl⟩

/-- C9: on a finalized builder, `construct_ast` rejects a `tuple` of macro
kernels with the `AssertionError` of the leading `isinstance(..., list)`
check, before any artifact is produced and with the builder unchanged. -/
theorem c9_construct_ast_rejects_tuple (b : KernelBuilder) (mks : List KAst)
    (_hf : b._is_finalized = true) :
    construct_ast b (PySeq.tuple mks) =
      (b, Except.error (SlateError.assertionError
        "Please wrap all macro kernel functions in a list")) := by
  simp [construct_ast]

/-- C9 witness: the theorem at a concrete finalized builder. -/
theorem c9_construct_ast_rejects_tuple_witness :
    finalizedBuilder._is_finalized = true ∧
    construct_ast finalizedBuilder (PySeq.tuple [5]) =
      (finalizedBuilder, Except.error (SlateError.assertionError
        "Please wrap all macro kernel functions in a list")) :=
  ⟨rfl, c9_construct_ast_rejects_tuple finalizedBuilder [5] rfl⟩

/-- C10: no public operation of the builder mutates the temporaries map or
the auxiliary-expression list: `require_cell_facets`,
`require_mesh_layers`, `coefficient_map`, `coefficient`,
`context_kernels`, `_finalize_kernels_and_update` and `construct_ast` all
leave `temps` and `aux_exprs` with their initial content and order. -/
theorem c10_temps_aux_immutable (b : KernelBuilder) :
    ((require_cell_facets b).temps = b.temps ∧
      (require_cell_facets b).aux_exprs = b.aux_exprs) ∧
    ((require_mesh_layers b).temps = b.temps ∧
      (require_mesh_layers b).aux_exprs = b.aux_exprs) ∧
    ((coefficient_map b).1.temps = b.temps ∧
      (coefficient_map b).1.aux_exprs = b.aux_exprs) ∧
    (∀ c, (coefficient b c).1.temps = b.temps ∧
      (coefficient b c).1.aux_exprs = b.aux_exprs) ∧
    (∀ f, (context_kernels f b).1.temps = b.temps ∧
      (context_kernels f b).1.aux_exprs = b.aux_exprs) ∧
    (∀ f v, (_finalize_kernels_and_update f v b).1.temps = b.temps ∧
      (_finalize_kernels_and_update f v b).1.aux_exprs = b.aux_exprs) ∧
    (∀ mks, (construct_ast b mks).1.temps = b.temps ∧
      (construct_ast b mks).1.aux_exprs = b.aux_exprs) := by
  refine ⟨⟨rfl, rfl⟩, ⟨rfl, rfl⟩, ?_, ?_, ?_, ?_, ?_⟩
  · cases h : b.coefficient_map_cache <;> simp [coefficient_map, h]
  · intro c
    cases h : b.coefficient_map_cache <;> simp [coefficient, coefficient_map, h]
  · intro f
    cases h : b.context_kernels_cache <;> simp [context_kernels, h]
  · intro f v
    have hck : (context_kernels f b).1.temps = b.temps ∧
        (context_kernels f b).1.aux_exprs = b.aux_exprs := by
      cases h : b.context_kernels_cache <;> simp [context_kernels, h]
    unfold _finalize_kernels_and_update
    cases hres : finalizeLoop v
        (((context_kernels f b).2.map ContextKernel.tsfc_kernels).flatten)
        (context_kernels f b).1.oriented [] with
    | error e => simp [hres, hck.1, hck.2]
    | ok q => simp [hres, hck.1, hck.2]
  · intro mks
    cases mks with
    | tuple xs => simp [construct_ast]
    | list xs =>
      by_cases hf : b._is_finalized
      · cases ha : b.finalized_ast <;> simp [construct_ast, hf, ha]
      · simp [construct_ast, hf]

end Slate

namespace Halo

/-- C8: counterexample to the claim as stated.  The insert-mode assertion
runs before the single-participant early return, so on a communicator of
size 1 an unsupported insert mode (here `INC` on `global_to_local_begin`)
raises an `AssertionError` instead of returning as a no-op. -/
theorem c8_not_noop_for_every_mode :
    global_to_local_begin (fun _ => none) (fun d _ _ => d) 1
        ⟨"d", 1, [0]⟩ Access.INC =
      Except.error (HaloError.assertionError "Only WRITE GtoL supported") := by
  rfl

/-- C8 (amended): on a single-participant deployment (communicator size 1)
each of the four halo operations, called with its one supported insert
mode (`WRITE` for global-to-local, `INC` for local-to-global), is a no-op:
it returns the distributed array unchanged and issues no communication
call; any other insert mode raises instead of returning. -/
theorem c8_singleton_noop (tdict : String → Option MPIType)
    (hb he : Dat → MPIType → Bool → Dat) (dat : Dat) :
    global_to_local_begin tdict hb 1 dat Access.WRITE = Except.ok (dat, []) ∧
    global_to_local_end tdict he 1 dat Access.WRITE = Except.ok (dat, []) ∧
    local_to_global_begin tdict hb 1 dat Access.INC = Except.ok (dat, []) ∧
    local_to_global_end tdict he 1 dat Access.INC = Except.ok (dat, []) := by
  refine ⟨?_, ?_, ?_, ?_⟩ <;> rfl

end Halo

namespace Slate

/-- C7: on a builder whose coefficient map has not yet been computed, the
computed map assigns the `i`-th coefficient (in canonical order) exactly
`N` symbols `"w_i_0" … "w_i_{N-1}"` when its element is mixed with `N`
parts, and exactly the one symbol `"w_i"` otherwise; and once computed,
every subsequent access returns the identical mapping with no further
state change. -/
theorem c7_coefficient_map_spec (b : KernelBuilder)
    (hb : b.coefficient_map_cache = none) :
    (∀ (i : Nat) (c : Coefficient), b.expression.coefficients[i]? = some c →
      (coefficient_map b).2[i]? = some (i,
        match c.mixedParts with
        | some n => (List.range n).map
            (fun j => "w_" ++ toString i ++ "_" ++ toString j)
        | none => ["w_" ++ toString i])) ∧
    coefficient_map (coefficient_map b).1 =
      ((coefficient_map b).1, (coefficient_map b).2) := by
  have hmap : coefficient_map b = ({ b with coefficient_map_cache := some (compute_coefficient_map b.expression.coefficients) }, compute_coefficient_map b.expression.coefficients) := by
    simp [coefficient_map, hb]
  constructor
  · intro i c hic
    rw [hmap]
    simp only
    rw [compute_coefficient_map_get?, hic]
    obtain ⟨mp⟩ := c
    cases mp with
    | some n => simp [coeffSyms_mixed]
    | none => simp [coeffSyms_simple]
  · rw [hmap]
    simp [coefficient_map]

/-- C7 witness: the theorem at a concrete builder with one mixed (two
part) coefficient and one non-mixed coefficient. -/
theorem c7_coefficient_map_spec_witness :
    coeffBuilder.coefficient_map_cache = none ∧
    ((∀ (i : Nat) (c : Coefficient), coeffBuilder.expression.coefficients[i]? = some c →
      (coefficient_map coeffBuilder).2[i]? = some (i,
        match c.mixedParts with
        | some n => (List.range n).map
            (fun j => "w_" ++ toString i ++ "_" ++ toString j)
        | none => ["w_" ++ toString i])) ∧
    coefficient_map (coefficient_map coeffBuilder).1 =
      ((coefficient_map coeffBuilder).1, (coefficient_map coeffBuilder).2)) :=
  ⟨rfl, c7_coefficient_map_spec coeffBuilder rfl⟩

end Slate

namespace Slate

theorem context_kernels_fields (f : Nat → Nat → List ContextKernel) (b : KernelBuilder) :
    (context_kernels f b).1.finalized_ast = b.finalized_ast ∧
    (context_kernels f b).1._is_finalized = b._is_finalized ∧
    (context_kernels f b).1.oriented = b.oriented := by
  cases h : b.context_kernels_cache <;> simp [context_kernels, h]

theorem context_kernels_cache_after (f : Nat → Nat → List ContextKernel) (b : KernelBuilder) :
    (context_kernels f b).1.context_kernels_cache = some (context_kernels f b).2 := by
  cases h : b.context_kernels_cache <;> simp [context_kernels, h]

theorem context_kernels_of_cache_some (f : Nat → Nat → List ContextKernel)
    (b : KernelBuilder) (cks : List ContextKernel)
    (h : b.context_kernels_cache = some cks) :
    context_kernels f b = (b, cks) := by
  simp [context_kernels, h]

/-- C4: if any subkernel in the context-kernel list reports a subdomain
identifier other than `"otherwise"`, finalize fails with the
`NotImplementedError` ("Unsupported") and the builder's observable state
is unchanged: the finalized AST stays `None`, the lifecycle stays
constructed (`_is_finalized` stays `False`), and `oriented` keeps its
prior value. -/
theorem c4_finalize_subdomain_rejected (f : Nat → Nat → List ContextKernel) (v : KAst → KAst)
    (b : KernelBuilder)
    (hfa : b.finalized_ast = none) (hif : b._is_finalized = false)
    (hbad : ∃ sk ∈ ((context_kernels f b).2.map ContextKernel.tsfc_kernels).flatten,
      sk.subdomain_id ≠ "otherwise") :
    (_finalize_kernels_and_update f v b).2 =
      Except.error (SlateError.notImplementedError "Subdomains not implemented yet.") ∧
    (_finalize_kernels_and_update f v b).1.finalized_ast = none ∧
    (_finalize_kernels_and_update f v b).1._is_finalized = false ∧
    (_finalize_kernels_and_update f v b).1.oriented = b.oriented := by
  have herr := finalizeLoop_error v
    (((context_kernels f b).2.map ContextKernel.tsfc_kernels).flatten)
    (context_kernels f b).1.oriented [] hbad
  have hfields := context_kernels_fields f b
  simp only [_finalize_kernels_and_update]
  rw [herr]
  simp [hfields.1, hfields.2.1, hfields.2.2, hfa, hif]



/-- C6: calling finalize a second time after a successful finalize leaves
the finalized subkernel list with the same content (no duplicated
entries, since it is rebuilt from the memoized context kernels and
reassigned, not extended) and the oriented flag with the same value (the
re-ORed flags are absorbed by idempotence of boolean or). -/
theorem c6_finalize_twice_stable (f : Nat → Nat → List ContextKernel) (v : KAst → KAst)
    (b : KernelBuilder)
    (h1 : (_finalize_kernels_and_update f v b).2 = Except.ok ()) :
    (_finalize_kernels_and_update f v (_finalize_kernels_and_update f v b).1).2 =
      Except.ok () ∧
    (_finalize_kernels_and_update f v (_finalize_kernels_and_update f v b).1).1.finalized_ast =
      (_finalize_kernels_and_update f v b).1.finalized_ast ∧
    (_finalize_kernels_and_update f v (_finalize_kernels_and_update f v b).1).1.oriented =
      (_finalize_kernels_and_update f v b).1.oriented := by
  have hall : ∀ sk ∈ ((context_kernels f b).2.map ContextKernel.tsfc_kernels).flatten,
      sk.subdomain_id = "otherwise" := by
    by_contra hc
    push_neg at hc
    have herr := finalizeLoop_error v
      (((context_kernels f b).2.map ContextKernel.tsfc_kernels).flatten)
      (context_kernels f b).1.oriented [] hc
    rw [_finalize_kernels_and_update] at h1
    rw [herr] at h1
    simp at h1
  have hloop1 := finalizeLoop_ok v
    (((context_kernels f b).2.map ContextKernel.tsfc_kernels).flatten)
    (context_kernels f b).1.oriented [] hall
  have hfin1 : _finalize_kernels_and_update f v b =
      ({ (context_kernels f b).1 with
          oriented := (context_kernels f b).1.oriented ||
            (((context_kernels f b).2.map ContextKernel.tsfc_kernels).flatten).any SplitKernel.oriented,
          finalized_ast := some ((((context_kernels f b).2.map ContextKernel.tsfc_kernels).flatten).map (fun sk => v sk.kernel_ast)),
          _is_finalized := true }, Except.ok ()) := by
    rw [_finalize_kernels_and_update, hloop1]
    simp
  have hc2 : context_kernels f (_finalize_kernels_and_update f v b).1 =
      ((_finalize_kernels_and_update f v b).1, (context_kernels f b).2) := by
    apply context_kernels_of_cache_some
    rw [hfin1]
    exact context_kernels_cache_after f b
  have hloop2 := finalizeLoop_ok v
    (((context_kernels f b).2.map ContextKernel.tsfc_kernels).flatten)
    (_finalize_kernels_and_update f v b).1.oriented [] hall
  have hfin2 : _finalize_kernels_and_update f v (_finalize_kernels_and_update f v b).1 =
      ({ (_finalize_kernels_and_update f v b).1 with
          oriented := (_finalize_kernels_and_update f v b).1.oriented ||
            (((context_kernels f b).2.map ContextKernel.tsfc_kernels).flatten).any SplitKernel.oriented,
          finalized_ast := some ((((context_kernels f b).2.map ContextKernel.tsfc_kernels).flatten).map (fun sk => v sk.kernel_ast)),
          _is_finalized := true }, Except.ok ()) := by
    rw [_finalize_kernels_and_update, hc2]
    simp only
    rw [hloop2]
    simp
  rw [hfin2]
  refine ⟨rfl, ?_, ?_⟩
  · simp only
    rw [hfin1]
  · simp only
    rw [hfin1]
    simp [Bool.or_assoc]


/-- C4 witness: the theorem at a concrete constructed builder whose
compiled context kernels report subdomain id `"1"`. -/
theorem c4_finalize_subdomain_rejected_witness :
    constructedBuilder.finalized_ast = none ∧
    constructedBuilder._is_finalized = false ∧
    (∃ sk ∈ ((context_kernels (fun _ _ => [⟨[⟨false, "1", 3⟩]⟩]) constructedBuilder).2.map
        ContextKernel.tsfc_kernels).flatten, sk.subdomain_id ≠ "otherwise") ∧
    ((_finalize_kernels_and_update (fun _ _ => [⟨[⟨false, "1", 3⟩]⟩]) id constructedBuilder).2 =
      Except.error (SlateError.notImplementedError "Subdomains not implemented yet.") ∧
    (_finalize_kernels_and_update (fun _ _ => [⟨[⟨false, "1", 3⟩]⟩]) id constructedBuilder).1.finalized_ast = none ∧
    (_finalize_kernels_and_update (fun _ _ => [⟨[⟨false, "1", 3⟩]⟩]) id constructedBuilder).1._is_finalized = false ∧
    (_finalize_kernels_and_update (fun _ _ => [⟨[⟨false, "1", 3⟩]⟩]) id constructedBuilder).1.oriented =
      constructedBuilder.oriented) :=
  ⟨rfl, rfl, by decide,
    c4_finalize_subdomain_rejected _ id constructedBuilder rfl rfl (by decide)⟩

/-- C6 witness: the theorem at a concrete constructed builder whose
compiled context kernels all report the default subdomain. -/
theorem c6_finalize_twice_stable_witness :
    (_finalize_kernels_and_update (fun _ _ => [⟨[⟨true, "otherwise", 7⟩]⟩]) id constructedBuilder).2 =
      Except.ok () ∧
    ((_finalize_kernels_and_update (fun _ _ => [⟨[⟨true, "otherwise", 7⟩]⟩]) id
        (_finalize_kernels_and_update (fun _ _ => [⟨[⟨true, "otherwise", 7⟩]⟩]) id constructedBuilder).1).2 =
      Except.ok () ∧
    (_finalize_kernels_and_update (fun _ _ => [⟨[⟨true, "otherwise", 7⟩]⟩]) id
        (_finalize_kernels_and_update (fun _ _ => [⟨[⟨true, "otherwise", 7⟩]⟩]) id constructedBuilder).1).1.finalized_ast =
      (_finalize_kernels_and_update (fun _ _ => [⟨[⟨true, "otherwise", 7⟩]⟩]) id constructedBuilder).1.finalized_ast ∧
    (_finalize_kernels_and_update (fun _ _ => [⟨[⟨true, "otherwise", 7⟩]⟩]) id
        (_finalize_kernels_and_update (fun _ _ => [⟨[⟨true, "otherwise", 7⟩]⟩]) id constructedBuilder).1).1.oriented =
      (_finalize_kernels_and_update (fun _ _ => [⟨[⟨true, "otherwise", 7⟩]⟩]) id constructedBuilder).1.oriented) :=
  ⟨by decide, c6_finalize_twice_stable _ id constructedBuilder (by decide)⟩

end Slate

namespace Slate

theorem nameTemps_length (start : Nat) (l : List Nat) :
    (nameTemps start l).length = l.length := by
  have h := congrArg List.length (nameTemps_map_fst start l)
  simpa using h

theorem nameTemps_map_snd (start : Nat) (l : List Nat) :
    (nameTemps start l).map Prod.snd =
      (List.range l.length).map (fun k => tempName (start + k)) := by
  induction l generalizing start with
  | nil => rfl
  | cons i rest ih =>
    simp only [nameTemps, List.map_cons, List.length_cons]
    rw [ih (start + 1), List.range_succ_eq_map]
    simp only [List.map_cons, List.map_map, Nat.add_zero, Function.comp]
    congr 1
    apply List.map_congr_left
    intro k _
    congr 1
    omega

/-- C5: for every well-formed expression graph, the temporaries map has
exactly one entry per distinct Terminal node — its keys are precisely the
Terminal nodes in first-encounter order of the traversal, each exactly
once regardless of how often the node is referenced — and the symbol
names are `"T0"`, `"T1"`, … assigned consecutively in that order. -/
theorem c5_temps_unique_and_named (g : Graph) (_hwf : g.WF) :
    (generate_expr_data g).1.map Prod.fst =
      (traverse_dags g).filter (fun i => isTensor g i) ∧
    ((generate_expr_data g).1.map Prod.fst).Nodup ∧
    (generate_expr_data g).1.map Prod.snd =
      (List.range (generate_expr_data g).1.length).map tempName := by
  rw [generate_expr_data_eq]
  simp only
  refine ⟨nameTemps_map_fst 0 _, ?_, ?_⟩
  · rw [nameTemps_map_fst]
    exact (traverse_dags_nodup g).filter _
  · rw [nameTemps_map_snd, nameTemps_length]
    apply List.map_congr_left
    intro k _
    rw [Nat.zero_add]



/-- C2: two-run determinism.  For two structurally identical expression
graphs built from independent node instances (their tag-erased arenas
agree), `generate_expr_data` produces equal temporaries maps (same keys,
same `"T0"`, `"T1"`, … symbols, same order) and equal sorted worklists,
and the constructor produces auxiliary-expression lists identical in
content and order. -/
theorem c2_two_run_determinism (g1 g2 : Graph) (h : stripTags g1 = stripTags g2) :
    generate_expr_data g1 = generate_expr_data g2 ∧
    (KernelBuilder.init g1).aux_exprs = (KernelBuilder.init g2).aux_exprs := by
  have hops : ∀ k, opsOf g1 k = opsOf g2 k := by
    intro k; rw [← opsOf_stripTags g1, h, opsOf_stripTags]
  have hkind : ∀ k, kindOf g1 k = kindOf g2 k := by
    intro k; rw [← kindOf_stripTags g1, h, kindOf_stripTags]
  have hroot : g1.root = g2.root := by
    rw [← root_stripTags g1, h, root_stripTags]
  have htrav : traverse_dags g1 = traverse_dags g2 := by
    unfold traverse_dags
    rw [hroot]
    exact visitOne_congr g1 g2 hops g2.root []
  have hcount : ∀ k, count_operands g1 k = count_operands g2 k := by
    intro k; unfold count_operands; rw [hops]
  have hrefc : ∀ k, collect_reference_count g1 k = collect_reference_count g2 k := by
    intro k
    unfold collect_reference_count
    rw [htrav]
    congr 1
    apply List.map_congr_left
    intro j _
    rw [hops]
  have hgen : generate_expr_data g1 = generate_expr_data g2 := by
    rw [generate_expr_data_eq, generate_expr_data_eq, htrav]
    have hf1 : (traverse_dags g2).filter (fun i => isTensor g1 i) =
        (traverse_dags g2).filter (fun i => isTensor g2 i) := by
      apply List.filter_congr
      intro i _
      simp [isTensor, hkind i]
    have hf2 : (traverse_dags g2).filter (fun i => isTensorOp g1 i) =
        (traverse_dags g2).filter (fun i => isTensorOp g2 i) := by
      apply List.filter_congr
      intro i _
      simp [isTensorOp, hkind i]
    have hle : (fun a b => decide (count_operands g1 a ≤ count_operands g1 b)) =
        (fun a b => decide (count_operands g2 a ≤ count_operands g2 b)) := by
      funext a b
      rw [hcount, hcount]
    rw [hf1, hf2, hle]
  refine ⟨hgen, ?_⟩
  simp only [KernelBuilder.init]
  rw [hgen]
  apply List.filter_congr
  intro op _
  rw [hrefc op, hkind op]



/-- C3: an Operator (`TensorOp`) node appears in the auxiliary-expression
list iff it was encountered in the traversal and its reference count in
the full expression graph exceeds 1 or it is an `Action` node; the list is
ordered non-decreasing by operand count; and ties are broken stably, in
traversal-discovery order (every tied pair of the list is a sublist of the
discovery-ordered worklist). -/
theorem c3_aux_membership_order (g : Graph) (_hwf : g.WF) :
    (∀ i : Nat, i ∈ (KernelBuilder.init g).aux_exprs ↔
      (i ∈ traverse_dags g ∧ isTensorOp g i = true ∧
        (1 < collect_reference_count g i ∨ kindOf g i = some NodeKind.action))) ∧
    (KernelBuilder.init g).aux_exprs.Pairwise
      (fun a b => count_operands g a ≤ count_operands g b) ∧
    (∀ a b : Nat, count_operands g a = count_operands g b →
      List.Sublist [a, b] (KernelBuilder.init g).aux_exprs →
      List.Sublist [a, b] ((traverse_dags g).filter (fun i => isTensorOp g i))) := by
  have htrans : ∀ a b c : Nat,
      (fun a b => decide (count_operands g a ≤ count_operands g b)) a b →
      (fun a b => decide (count_operands g a ≤ count_operands g b)) b c →
      (fun a b => decide (count_operands g a ≤ count_operands g b)) a c := by
    intro a b c
    simp only [decide_eq_true_eq]
    omega
  have htotal : ∀ a b : Nat,
      ((fun a b => decide (count_operands g a ≤ count_operands g b)) a b ||
       (fun a b => decide (count_operands g a ≤ count_operands g b)) b a) = true := by
    intro a b
    simp only [Bool.or_eq_true, decide_eq_true_eq]
    omega
  have haux : (KernelBuilder.init g).aux_exprs =
      ((generate_expr_data g).2).filter
        (fun op => decide (1 < collect_reference_count g op) ||
          (kindOf g op == some NodeKind.action)) := rfl
  have hgen2 : (generate_expr_data g).2 =
      ((traverse_dags g).filter (fun i => isTensorOp g i)).mergeSort
        (fun a b => decide (count_operands g a ≤ count_operands g b)) := by
    rw [generate_expr_data_eq]
  have hnd_pre : ((traverse_dags g).filter (fun i => isTensorOp g i)).Nodup :=
    (traverse_dags_nodup g).filter _
  have hnd_srt : ((generate_expr_data g).2).Nodup := by
    rw [hgen2]
    exact (List.mergeSort_perm _ _).nodup_iff.mpr hnd_pre
  refine ⟨?_, ?_, ?_⟩
  · intro i
    rw [haux, List.mem_filter, hgen2, List.mem_mergeSort, List.mem_filter]
    constructor
    · rintro ⟨⟨hmem, hop⟩, hpred⟩
      refine ⟨hmem, hop, ?_⟩
      simpa using hpred
    · rintro ⟨hmem, hop, hpred⟩
      refine ⟨⟨hmem, hop⟩, ?_⟩
      simpa using hpred
  · have hpw : ((generate_expr_data g).2).Pairwise
        (fun a b => (decide (count_operands g a ≤ count_operands g b)) = true) := by
      rw [hgen2]
      exact List.sorted_mergeSort htrans htotal _
    have hpw2 : ((KernelBuilder.init g).aux_exprs).Pairwise
        (fun a b => (decide (count_operands g a ≤ count_operands g b)) = true) := by
      rw [haux]
      exact List.Pairwise.sublist (List.filter_sublist _) hpw
    exact hpw2.imp (fun h => by simpa using h)
  · intro a b hcount hsub
    rw [haux] at hsub
    have hsub_srt : List.Sublist [a, b] ((generate_expr_data g).2) :=
      hsub.trans (List.filter_sublist _)
    have hab : a ≠ b := by
      rintro rfl
      exact (List.nodup_iff_sublist.mp hnd_srt a) hsub_srt
    have ha : a ∈ (traverse_dags g).filter (fun i => isTensorOp g i) := by
      have := hsub_srt.subset (by simp : a ∈ [a, b])
      rw [hgen2, List.mem_mergeSort] at this
      exact this
    have hb : b ∈ (traverse_dags g).filter (fun i => isTensorOp g i) := by
      have := hsub_srt.subset (by simp : b ∈ [a, b])
      rw [hgen2, List.mem_mergeSort] at this
      exact this
    rcases two_mem_sublist ha hb hab with hgood | hbadorder
    · exact hgood
    · exfalso
      have hba_le : (fun a b => decide (count_operands g a ≤ count_operands g b)) b a = true := by
        simp only [decide_eq_true_eq]
        omega
      have hba_srt := List.pair_sublist_mergeSort htrans htotal hba_le hbadorder
      rw [← hgen2] at hba_srt
      exact sublist_pair_antisymm hnd_srt hsub_srt hba_srt hab


/-- C5 witness: the theorem at a concrete well-formed graph. -/
theorem c5_temps_unique_and_named_witness :
    Graph.WF sumGraph ∧
    ((generate_expr_data sumGraph).1.map Prod.fst =
      (traverse_dags sumGraph).filter (fun i => isTensor sumGraph i) ∧
    ((generate_expr_data sumGraph).1.map Prod.fst).Nodup ∧
    (generate_expr_data sumGraph).1.map Prod.snd =
      (List.range (generate_expr_data sumGraph).1.length).map tempName) :=
  ⟨by unfold Graph.WF; decide,
    c5_temps_unique_and_named sumGraph (by unfold Graph.WF; decide)⟩

/-- C2 witness: the theorem at two concrete graphs of identical structure
built with different instance tags. -/
theorem c2_two_run_determinism_witness :
    stripTags sumGraph = stripTags sumGraph' ∧
    (generate_expr_data sumGraph = generate_expr_data sumGraph' ∧
    (KernelBuilder.init sumGraph).aux_exprs = (KernelBuilder.init sumGraph').aux_exprs) :=
  ⟨by decide, c2_two_run_determinism sumGraph sumGraph' (by decide)⟩

/-- C3 witness: the theorem at a concrete well-formed graph. -/
theorem c3_aux_membership_order_witness :
    Graph.WF sumGraph ∧
    ((∀ i : Nat, i ∈ (KernelBuilder.init sumGraph).aux_exprs ↔
      (i ∈ traverse_dags sumGraph ∧ isTensorOp sumGraph i = true ∧
        (1 < collect_reference_count sumGraph i ∨
          kindOf sumGraph i = some NodeKind.action))) ∧
    (KernelBuilder.init sumGraph).aux_exprs.Pairwise
      (fun a b => count_operands sumGraph a ≤ count_operands sumGraph b) ∧
    (∀ a b : Nat, count_operands sumGraph a = count_operands sumGraph b →
      List.Sublist [a, b] (KernelBuilder.init sumGraph).aux_exprs →
      List.Sublist [a, b] ((traverse_dags sumGraph).filter
        (fun i => isTensorOp sumGraph i)))) :=
  ⟨by unfold Graph.WF; decide,
    c3_aux_membership_order sumGraph (by unfold Graph.WF; decide)⟩

end Slate
